import Mathlib

/-!
Shallow embedding of the MutexLogger crate (src/logger.rs).

The Rust `MLogger` guards a `VecDeque<(u32, String, Verbosity)>` and a `u32`
counter behind mutexes.  In this sequential embedding lock acquisition always
succeeds (a poisoned mutex requires a panicking concurrent holder), so
operations whose only failure mode is a poisoned lock are modelled as total.
The deque is modelled as a `List` whose head is the front (most recent entry):
`push_front` is `cons`, `pop_back` is `dropLast`, and positional reads index
from the head, matching `VecDeque` indexing.  The `u32` counter is modelled as
a `Nat` with wraparound modulo `2 ^ 32` on increment, Rust's release-mode
overflow semantics for `+=` on `u32`.  `get_entries` calls
`VecDeque::range(start..end)`, which panics when `start > end` or `end > len`;
the panic is modelled as an explicit `GetEntriesResult.panicked` outcome.
Console output is modelled as the list of printed lines, and the side effects
of `log` as an explicit event list in program order.
-/

namespace MutexLogger

/-- `Verbosity` from src/logger.rs: `Silent < Error < Warn < Info < Debug`
(Rust derives `PartialOrd` and `Ord` from declaration order). -/
inductive Verbosity where
  | Silent
  | Error
  | Warn
  | Info
  | Debug
deriving DecidableEq, Repr

/-- Declaration-order rank, the order Rust's derived `Ord` uses. -/
def Verbosity.toNat : Verbosity → Nat
  | .Silent => 0
  | .Error => 1
  | .Warn => 2
  | .Info => 3
  | .Debug => 4

instance : LE Verbosity := ⟨fun a b => a.toNat ≤ b.toNat⟩

instance : LT Verbosity := ⟨fun a b => a.toNat < b.toNat⟩

instance (a b : Verbosity) : Decidable (a ≤ b) := inferInstanceAs (Decidable (a.toNat ≤ b.toNat))

instance (a b : Verbosity) : Decidable (a < b) := inferInstanceAs (Decidable (a.toNat < b.toNat))

/-- The `Display` rendering of a `Verbosity`. -/
def Verbosity.str : Verbosity → String
  | .Silent => "Silent"
  | .Error => "Error"
  | .Warn => "Warn"
  | .Info => "Info"
  | .Debug => "Debug"

/-- A log entry: the Rust tuple `(u32, String, Verbosity)` of id, message, level. -/
structure LogEntry where
  id : Nat
  message : String
  level : Verbosity
deriving DecidableEq, Repr

/-- `2 ^ 32`, the modulus of the `u32` id counter. -/
def u32size : Nat := 4294967296

/-- `MLogger` state: configured verbosity threshold, capacity bound, the pool
(head = most recent), and the id counter (a `u32`, always `< u32size`). -/
structure MLogger where
  verbosity : Verbosity
  max_size : Nat
  pool : List LogEntry
  counter : Nat
deriving DecidableEq, Repr

/-- `MLogger::init_default`: threshold `Debug`, capacity 1000, empty pool, counter 0. -/
def init_default : MLogger := ⟨Verbosity.Debug, 1000, [], 0⟩

/-- `MLogger::init`. -/
def init (verbosity : Verbosity) (max_size : Nat) : MLogger := ⟨verbosity, max_size, [], 0⟩

/-- Observable side effects of `MLogger::log`, in program order. -/
inductive Event where
  | console (line : String)
  | pushFront (e : LogEntry)
  | popBack
deriving DecidableEq, Repr

/-- `MLogger::log`: build the entry from the current counter, print the message
when `level <= verbosity`, `push_front` it, `pop_back` once when the length
exceeds `max_size`, then increment the counter (wrapping `u32`).  Returns the
emitted events in program order together with the new state. -/
def log (s : MLogger) (msg : String) (verbosity : Verbosity) : List Event × MLogger :=
  let log_entry : LogEntry := ⟨s.counter, msg, verbosity⟩
  let consoleEvents : List Event :=
    if log_entry.level ≤ s.verbosity then [Event.console log_entry.message] else []
  let pushed : List LogEntry := log_entry :: s.pool
  let newPool : List LogEntry := if pushed.length > s.max_size then pushed.dropLast else pushed
  let evictEvents : List Event := if pushed.length > s.max_size then [Event.popBack] else []
  (consoleEvents ++ Event.pushFront log_entry :: evictEvents,
    ⟨s.verbosity, s.max_size, newPool, (s.counter + 1) % u32size⟩)

/-- The state after `MLogger::log`. -/
def logState (s : MLogger) (msg : String) (verbosity : Verbosity) : MLogger :=
  (log s msg verbosity).2

/-- The events emitted by `MLogger::log`. -/
def logEvents (s : MLogger) (msg : String) (verbosity : Verbosity) : List Event :=
  (log s msg verbosity).1

/-- `MLogger::get_entry`: `pool.get(index).cloned().ok_or_else(.. "index out of bounds")`. -/
def get_entry (s : MLogger) (index : Nat) : Except String LogEntry :=
  match s.pool[index]? with
  | some e => Except.ok e
  | none => Except.error ("index out of bounds")

/-- `MLogger::get_size`: the pool length. -/
def get_size (s : MLogger) : Nat := s.pool.length

/-- `MLogger::get_log`: all retained entries with `level <= filter`, pool order. -/
def get_log (s : MLogger) (filter : Verbosity) : List LogEntry :=
  s.pool.filter (fun e => decide (e.level ≤ filter))

/-- Result of `MLogger::get_entries`; `panicked` models the panic of
`VecDeque::range` on an invalid range. -/
inductive GetEntriesResult where
  | ok (entries : List LogEntry)
  | panicked
deriving DecidableEq, Repr

/-- `MLogger::get_entries`: `pool.range(start_index..end_index)` filtered by
`level <= filter`.  `VecDeque::range` panics when `start_index > end_index` or
`end_index > len`; the source performs no range validation of its own. -/
def get_entries (s : MLogger) (start_index end_index : Nat) (filter : Verbosity) :
    GetEntriesResult :=
  if start_index > end_index ∨ end_index > s.pool.length then GetEntriesResult.panicked
  else GetEntriesResult.ok
    (((s.pool.drop start_index).take (end_index - start_index)).filter
      (fun e => decide (e.level ≤ filter)))

/-- The console line printed per entry by `MLogger::print_log_level`:
`"{id} {level} {message}"`. -/
def entryLine (e : LogEntry) : String :=
  toString e.id ++ (" ") ++ e.level.str ++ (" ") ++ e.message

/-- `MLogger::print_log_level`: collect the entries whose level is exactly
`predicator` (pool order) and print one line each; modelled as the lines. -/
def print_log_level (s : MLogger) (predicator : Verbosity) : List String :=
  (s.pool.filter (fun e => e.level == predicator)).map entryLine

/-- One `log` call viewed as a fold step over `(message, level)` pairs. -/
def runStep (s : MLogger) (op : String × Verbosity) : MLogger := logState s op.1 op.2

/-- The state after a sequence of `log` calls starting from `s`. -/
def runFrom (s : MLogger) (ops : List (String × Verbosity)) : MLogger := ops.foldl runStep s

/-- The state after a sequence of `log` calls on a fresh `init verbosity max_size`. -/
def runLog (verbosity : Verbosity) (max_size : Nat) (ops : List (String × Verbosity)) : MLogger :=
  runFrom (init verbosity max_size) ops

/-- The id assigned by the `n`-th (1-based) `log` call of `ops`: the counter
value after the first `n - 1` calls. -/
def nthAppendId (verbosity : Verbosity) (max_size : Nat) (ops : List (String × Verbosity))
    (n : Nat) : Nat :=
  (runLog verbosity max_size (ops.take (n - 1))).counter

/-- Sample append sequence used to instantiate the general theorems. -/
def sampleOps : List (String × Verbosity) := [(("a"), Verbosity.Error), (("b"), Verbosity.Warn)]

/-- A full pool: capacity 2 with both slots taken. -/
def sampleFull : MLogger := runLog Verbosity.Debug 2 sampleOps

/-- A one-entry pool holding no `Silent`-tagged entry. -/
def sampleSilentFree : MLogger := logState init_default ("a") Verbosity.Error

/-- `2 ^ 32 + 1` identical appends, enough to wrap the `u32` id counter. -/
def wrapOps : List (String × Verbosity) := List.replicate (u32size + 1) (("x"), Verbosity.Error)

/-- Exactly `2 ^ 32` identical appends: the counter wraps back to `0`. -/
def wrapOpsExact : List (String × Verbosity) := List.replicate u32size (("x"), Verbosity.Error)

theorem logState_pool (s : MLogger) (m : String) (v : Verbosity) :
    (logState s m v).pool =
      if s.pool.length + 1 > s.max_size then (⟨s.counter, m, v⟩ :: s.pool).dropLast
      else ⟨s.counter, m, v⟩ :: s.pool := rfl

theorem logState_counter (s : MLogger) (m : String) (v : Verbosity) :
    (logState s m v).counter = (s.counter + 1) % u32size := rfl

theorem logState_max_size (s : MLogger) (m : String) (v : Verbosity) :
    (logState s m v).max_size = s.max_size := rfl

theorem u32size_pos : 0 < u32size := by decide

theorem runFrom_max_size (ops : List (String × Verbosity)) :
    ∀ s : MLogger, (runFrom s ops).max_size = s.max_size := by
  induction ops with
  | nil => intro s; rfl
  | cons op ops ih =>
    intro s
    exact (ih (runStep s op)).trans (logState_max_size s op.1 op.2)

theorem runFrom_counter (ops : List (String × Verbosity)) :
    ∀ s : MLogger, s.counter < u32size →
      (runFrom s ops).counter = (s.counter + ops.length) % u32size := by
  induction ops with
  | nil =>
    intro s h
    show s.counter = (s.counter + 0) % u32size
    rw [Nat.add_zero, Nat.mod_eq_of_lt h]
  | cons op ops ih =>
    intro s h
    have hstep : (runStep s op).counter = (s.counter + 1) % u32size := rfl
    have hlt : (runStep s op).counter < u32size := by
      rw [hstep]; exact Nat.mod_lt _ u32size_pos
    show (runFrom (runStep s op) ops).counter = _
    rw [ih (runStep s op) hlt, hstep, Nat.mod_add_mod, List.length_cons]
    congr 1
    omega

theorem runLog_counter (v : Verbosity) (cap : Nat) (ops : List (String × Verbosity)) :
    (runLog v cap ops).counter = ops.length % u32size := by
  have h := runFrom_counter ops (init v cap) u32size_pos
  rw [runLog, h]
  show (0 + ops.length) % u32size = ops.length % u32size
  rw [Nat.zero_add]

theorem runLog_max_size (v : Verbosity) (cap : Nat) (ops : List (String × Verbosity)) :
    (runLog v cap ops).max_size = cap :=
  runFrom_max_size ops (init v cap)

theorem logState_length_le (s : MLogger) (m : String) (v : Verbosity)
    (h : s.pool.length ≤ s.max_size) : (logState s m v).pool.length ≤ s.max_size := by
  rw [logState_pool]
  by_cases hc : s.pool.length + 1 > s.max_size
  · rw [if_pos hc, List.length_dropLast, List.length_cons]
    omega
  · rw [if_neg hc, List.length_cons]
    omega

theorem runFrom_length_le (ops : List (String × Verbosity)) :
    ∀ s : MLogger, s.pool.length ≤ s.max_size →
      (runFrom s ops).pool.length ≤ (runFrom s ops).max_size := by
  induction ops with
  | nil => intro s h; exact h
  | cons op ops ih =>
    intro s h
    exact ih (runStep s op) (logState_length_le s op.1 op.2 h)

theorem nthAppendId_mod (v : Verbosity) (cap : Nat) (ops : List (String × Verbosity)) (n : Nat)
    (h : n - 1 ≤ ops.length) : nthAppendId v cap ops n = (n - 1) % u32size := by
  unfold nthAppendId
  rw [runLog_counter, List.length_take, Nat.min_eq_left h]

theorem le_debug (v : Verbosity) : v ≤ Verbosity.Debug := by cases v <;> decide

theorem le_silent_iff (v : Verbosity) : v ≤ Verbosity.Silent ↔ v = Verbosity.Silent := by
  cases v <;> decide

theorem inv_step (s : MLogger) (m : String) (v : Verbosity)
    (h1 : s.pool.Pairwise (fun a b => b.id < a.id))
    (h2 : ∀ e ∈ s.pool, e.id < s.counter)
    (h3 : s.counter + 1 < u32size) :
    (logState s m v).pool.Pairwise (fun a b => b.id < a.id) ∧
      (∀ e ∈ (logState s m v).pool, e.id < (logState s m v).counter) := by
  have hcons : (⟨s.counter, m, v⟩ :: s.pool : List LogEntry).Pairwise (fun a b => b.id < a.id) :=
    List.pairwise_cons.mpr ⟨fun b hb => h2 b hb, h1⟩
  have hsub : List.Sublist (logState s m v).pool (⟨s.counter, m, v⟩ :: s.pool) := by
    rw [logState_pool]
    by_cases hc : s.pool.length + 1 > s.max_size
    · rw [if_pos hc]; exact List.dropLast_sublist _
    · rw [if_neg hc]
  refine ⟨hcons.sublist hsub, ?_⟩
  intro e he
  have hcnt : (logState s m v).counter = s.counter + 1 := by
    rw [logState_counter, Nat.mod_eq_of_lt h3]
  rw [hcnt]
  rcases List.mem_cons.mp (hsub.mem he) with h | h
  · rw [h]
    exact Nat.lt_succ_self s.counter
  · exact Nat.lt_succ_of_lt (h2 e h)

theorem inv_runFrom (ops : List (String × Verbosity)) :
    ∀ s : MLogger, s.pool.Pairwise (fun a b => b.id < a.id) →
      (∀ e ∈ s.pool, e.id < s.counter) → s.counter + ops.length < u32size →
      (runFrom s ops).pool.Pairwise (fun a b => b.id < a.id) ∧
        (∀ e ∈ (runFrom s ops).pool, e.id < (runFrom s ops).counter) := by
  induction ops with
  | nil => intro s h1 h2 _; exact ⟨h1, h2⟩
  | cons op ops ih =>
    intro s h1 h2 h3
    rw [List.length_cons] at h3
    have hlt : s.counter + 1 < u32size := by omega
    have hstep := inv_step s op.1 op.2 h1 h2 hlt
    have hcnt : (runStep s op).counter = s.counter + 1 := by
      show (logState s op.1 op.2).counter = s.counter + 1
      rw [logState_counter, Nat.mod_eq_of_lt hlt]
    exact ih (runStep s op) hstep.1 hstep.2 (by rw [hcnt]; omega)

theorem runFrom_append (s : MLogger) (l1 l2 : List (String × Verbosity)) :
    runFrom s (l1 ++ l2) = runFrom (runFrom s l1) l2 :=
  List.foldl_append runStep s l1 l2

theorem runLog_cap1_pool (v lv : Verbosity) (m : String) :
    ∀ n : Nat, (runLog v 1 (List.replicate (n + 1) (m, lv))).pool = [⟨n % u32size, m, lv⟩] := by
  intro n
  induction n with
  | zero => rfl
  | succ k ih =>
    have hrep : List.replicate (k + 1 + 1) (m, lv) = List.replicate (k + 1) (m, lv) ++ [(m, lv)] :=
      List.replicate_succ' (k + 1) (m, lv)
    have hms : (runLog v 1 (List.replicate (k + 1) (m, lv))).max_size = 1 :=
      runLog_max_size v 1 _
    have hcnt : (runLog v 1 (List.replicate (k + 1) (m, lv))).counter = (k + 1) % u32size := by
      rw [runLog_counter, List.length_replicate]
    rw [runLog, hrep, runFrom_append]
    show (logState (runLog v 1 (List.replicate (k + 1) (m, lv))) m lv).pool = _
    rw [logState_pool, ih, hms, hcnt]
    rfl

/-- C1: the spec demands that `get_entries(start, end, filter)` with `start > end` or with
`end` beyond the current size fail with `RangeError::InvalidRange`; the source instead
forwards the raw bounds to `VecDeque::range`, which panics on such inputs, so on
`(0, size + 1)` and on `(1, 0)` the call panics rather than reporting an error. -/
theorem get_entries_out_of_range_panics (s : MLogger) (filter : Verbosity) :
    get_entries s 0 (get_size s + 1) filter = GetEntriesResult.panicked ∧
      get_entries s 1 0 filter = GetEntriesResult.panicked := by
  constructor
  · show (if 0 > get_size s + 1 ∨ get_size s + 1 > s.pool.length then _ else _) = _
    rw [if_pos (show 0 > get_size s + 1 ∨ get_size s + 1 > s.pool.length from
      Or.inr (Nat.lt_succ_self s.pool.length))]
  · show (if 1 > 0 ∨ 0 > s.pool.length then _ else _) = _
    rw [if_pos (Or.inl Nat.one_pos)]

/-- C2: for every append sequence the size reported by `get_size` never exceeds the
configured capacity, and an insertion into a pool already at (or beyond) capacity removes
exactly one entry, the least recently inserted one (`dropLast` drops the back of the
most-recent-first pool), leaving the length unchanged. -/
theorem capacity_never_exceeded_and_oldest_evicted (v : Verbosity) (cap : Nat)
    (ops : List (String × Verbosity)) (s : MLogger) (m : String) (lv : Verbosity)
    (h : s.max_size ≤ s.pool.length) :
    get_size (runLog v cap ops) ≤ cap ∧
      (logState s m lv).pool = (⟨s.counter, m, lv⟩ :: s.pool).dropLast ∧
      (logState s m lv).pool.length = s.pool.length := by
  have hpool : (logState s m lv).pool = (⟨s.counter, m, lv⟩ :: s.pool).dropLast := by
    rw [logState_pool, if_pos (by omega : s.pool.length + 1 > s.max_size)]
  refine ⟨?_, hpool, ?_⟩
  · have hle := runFrom_length_le ops (init v cap) (by simp [init])
    rw [runFrom_max_size] at hle
    exact hle
  · rw [hpool, List.length_dropLast, List.length_cons]
    omega

theorem capacity_never_exceeded_and_oldest_evicted_witness :
    sampleFull.max_size ≤ sampleFull.pool.length ∧
      (get_size (runLog Verbosity.Debug 2 sampleOps) ≤ 2 ∧
        (logState sampleFull ("c") Verbosity.Info).pool =
          (⟨sampleFull.counter, ("c"), Verbosity.Info⟩ :: sampleFull.pool).dropLast ∧
        (logState sampleFull ("c") Verbosity.Info).pool.length = sampleFull.pool.length) :=
  ⟨by decide,
    capacity_never_exceeded_and_oldest_evicted Verbosity.Debug 2 sampleOps sampleFull ("c")
      Verbosity.Info (by decide)⟩

/-- C3 (amended): within the first `2 ^ 32` append calls the `n`-th (1-based) call is
assigned id `n - 1`, and, below the wrap point, each call advances the counter by exactly
1, for every capacity (including capacity 0) and threshold; from the `2 ^ 32 + 1`-th call
on, the `u32` counter has wrapped and the id is `n - 1` only modulo `2 ^ 32`. -/
theorem nth_append_id_eq_pred_below_u32 (v : Verbosity) (cap : Nat)
    (ops : List (String × Verbosity)) (n : Nat) (h1 : 1 ≤ n) (h2 : n ≤ u32size)
    (h3 : n ≤ ops.length) :
    nthAppendId v cap ops n = n - 1 ∧
      (n < u32size → (runLog v cap (ops.take n)).counter = nthAppendId v cap ops n + 1) := by
  have hid : nthAppendId v cap ops n = n - 1 := by
    rw [nthAppendId_mod v cap ops n (by omega), Nat.mod_eq_of_lt (by omega)]
  refine ⟨hid, fun hlt => ?_⟩
  rw [runLog_counter, List.length_take, Nat.min_eq_left h3, Nat.mod_eq_of_lt hlt, hid]
  omega

theorem nth_append_id_eq_pred_below_u32_witness :
    (1 ≤ 2 ∧ 2 ≤ u32size ∧ 2 ≤ sampleOps.length) ∧
      (nthAppendId Verbosity.Warn 0 sampleOps 2 = 1 ∧
        (2 < u32size →
          (runLog Verbosity.Warn 0 (sampleOps.take 2)).counter =
            nthAppendId Verbosity.Warn 0 sampleOps 2 + 1)) :=
  ⟨by decide,
    nth_append_id_eq_pred_below_u32 Verbosity.Warn 0 sampleOps 2 (by decide) (by decide)
      (by decide)⟩

/-- C3 counterexample: on the `2 ^ 32 + 1`-th append call the wrapped `u32` counter
assigns id 0, not the id `N - 1 = 2 ^ 32` that the claim predicts. -/
theorem nth_append_id_wraps_at_u32 :
    nthAppendId Verbosity.Debug 1000 wrapOps (u32size + 1) = 0 ∧ u32size + 1 - 1 ≠ 0 := by
  constructor
  · rw [nthAppendId_mod Verbosity.Debug 1000 wrapOps (u32size + 1)
      (by unfold wrapOps; rw [List.length_replicate]; omega)]
    rw [Nat.add_sub_cancel, Nat.mod_self]
  · rw [Nat.add_sub_cancel]
    decide

/-- C4: `get_log filter` returns exactly the retained entries whose level is at most
`filter`, as a sublist of the most-recent-first pool (so relative order is preserved),
and with `filter = Debug` it returns every retained entry. -/
theorem get_log_filters_and_preserves_order (s : MLogger) (f : Verbosity) :
    (∀ e, e ∈ get_log s f ↔ e ∈ s.pool ∧ e.level ≤ f) ∧
      List.Sublist (get_log s f) s.pool ∧ get_log s Verbosity.Debug = s.pool := by
  refine ⟨fun e => ?_, List.filter_sublist s.pool, ?_⟩
  · unfold get_log
    rw [List.mem_filter]
    simp
  · unfold get_log
    exact List.filter_eq_self.mpr fun a _ => decide_eq_true (le_debug a.level)

/-- C5 counterexample: the code accepts `Silent` as an entry level, and such an entry is
returned by `get_log Silent`, so on that pool state the result is not empty. -/
theorem get_log_silent_nonempty_on_silent_entry :
    get_log (logState init_default ("x") Verbosity.Silent) Verbosity.Silent ≠ [] := by decide

/-- C5 (amended): on every pool state none of whose retained entries is tagged `Silent`
(the legitimate states — the spec calls `Silent`-tagged entries caller misuse),
`get_log Silent` returns the empty sequence. -/
theorem get_log_silent_empty_without_silent_entries (s : MLogger)
    (h : ∀ e ∈ s.pool, e.level ≠ Verbosity.Silent) :
    get_log s Verbosity.Silent = [] := by
  unfold get_log
  rw [List.filter_eq_nil_iff]
  intro e he
  simp only [decide_eq_true_eq]
  exact fun hle => h e he ((le_silent_iff e.level).mp hle)

theorem get_log_silent_empty_without_silent_entries_witness :
    (∀ e ∈ sampleSilentFree.pool, e.level ≠ Verbosity.Silent) ∧
      get_log sampleSilentFree Verbosity.Silent = [] :=
  ⟨by decide, get_log_silent_empty_without_silent_entries sampleSilentFree (by decide)⟩

/-- C6: `print_log_level p` prints one line per retained entry whose level is exactly
`p` (equality, not the `<=` threshold used by `get_log`), in most-recent-first pool
order: the printed lines are the image of the exact-match sublist of the pool. -/
theorem print_log_level_exact_match (s : MLogger) (p : Verbosity) :
    print_log_level s p = (s.pool.filter (fun e => decide (e.level = p))).map entryLine ∧
      List.Sublist (s.pool.filter (fun e => decide (e.level = p))) s.pool :=
  ⟨rfl, List.filter_sublist s.pool⟩

/-- C7: a `log` call emits the console line exactly when `level <= verbosity`, and in the
event trace the console write precedes the insertion of the entry into the pool. -/
theorem log_console_iff_le_threshold_before_insert (s : MLogger) (m : String) (v : Verbosity) :
    logEvents s m v =
        (if v ≤ s.verbosity then [Event.console m] else []) ++
          Event.pushFront ⟨s.counter, m, v⟩ ::
            (if s.pool.length + 1 > s.max_size then [Event.popBack] else []) ∧
      (Event.console m ∈ logEvents s m v ↔ v ≤ s.verbosity) := by
  refine ⟨rfl, ?_⟩
  rw [show logEvents s m v =
    (if v ≤ s.verbosity then [Event.console m] else []) ++
      Event.pushFront ⟨s.counter, m, v⟩ ::
        (if s.pool.length + 1 > s.max_size then [Event.popBack] else []) from rfl]
  by_cases hv : v ≤ s.verbosity
  · simp [hv]
  · by_cases hp : s.pool.length + 1 > s.max_size <;> simp [hv, hp]

/-- C8: `get_entry index` succeeds with the entry at 0-based position `index` from the
most-recent end exactly when `index` is below the current size, and fails with the
index-out-of-bounds error exactly when `index` is at or beyond the current size. -/
theorem get_entry_index_bounds (s : MLogger) (index : Nat) :
    (index < s.pool.length →
        ∃ e, s.pool[index]? = some e ∧ get_entry s index = Except.ok e) ∧
      (s.pool.length ≤ index → get_entry s index = Except.error ("index out of bounds")) := by
  constructor
  · intro h
    have h2 : s.pool[index]? = some (s.pool.get ⟨index, h⟩) := by
      simp [List.getElem?_eq_getElem h]
    exact ⟨s.pool.get ⟨index, h⟩, h2, by unfold get_entry; rw [h2]⟩
  · intro h
    have h2 : s.pool[index]? = none := List.getElem?_eq_none h
    unfold get_entry
    rw [h2]

theorem get_entry_index_bounds_witness :
    (0 < sampleSilentFree.pool.length ∧
        ∃ e, sampleSilentFree.pool[0]? = some e ∧ get_entry sampleSilentFree 0 = Except.ok e) ∧
      (sampleSilentFree.pool.length ≤ 1 ∧
        get_entry sampleSilentFree 1 = Except.error ("index out of bounds")) :=
  ⟨⟨by decide, (get_entry_index_bounds sampleSilentFree 0).1 (by decide)⟩,
    ⟨by decide, (get_entry_index_bounds sampleSilentFree 1).2 (by decide)⟩⟩

/-- C9 counterexample: the first append call and the `2 ^ 32 + 1`-th append call are
distinct calls yet are assigned the same id, because the `u32` counter wraps. -/
theorem append_id_reused_after_u32_appends :
    nthAppendId Verbosity.Debug 1000 wrapOps 1 =
        nthAppendId Verbosity.Debug 1000 wrapOps (u32size + 1) ∧
      (1 : Nat) ≠ u32size + 1 := by
  constructor
  · rw [nthAppendId_mod Verbosity.Debug 1000 wrapOps 1 (Nat.zero_le _),
      nthAppendId_mod Verbosity.Debug 1000 wrapOps (u32size + 1)
        (by unfold wrapOps; rw [List.length_replicate]; omega),
      Nat.add_sub_cancel, Nat.mod_self, Nat.sub_self, Nat.zero_mod]
  · decide

/-- C9 (amended): within the first `2 ^ 32` append calls of a pool's lifetime no two
distinct calls are assigned the same id (the counter increases strictly from 0 there);
once `2 ^ 32` appends have happened the 32-bit counter wraps and ids are reused. -/
theorem append_ids_distinct_below_u32 (v : Verbosity) (cap : Nat)
    (ops : List (String × Verbosity)) (i j : Nat) (h1 : 1 ≤ i) (h2 : i < j)
    (h3 : j ≤ u32size) (h4 : j ≤ ops.length) :
    nthAppendId v cap ops i ≠ nthAppendId v cap ops j := by
  rw [nthAppendId_mod v cap ops i (by omega), nthAppendId_mod v cap ops j (by omega),
    Nat.mod_eq_of_lt (by omega), Nat.mod_eq_of_lt (by omega)]
  omega

theorem append_ids_distinct_below_u32_witness :
    (1 ≤ 1 ∧ 1 < 2 ∧ 2 ≤ u32size ∧ 2 ≤ sampleOps.length) ∧
      nthAppendId Verbosity.Debug 1000 sampleOps 1 ≠ nthAppendId Verbosity.Debug 1000 sampleOps 2 :=
  ⟨by decide,
    append_ids_distinct_below_u32 Verbosity.Debug 1000 sampleOps 1 2 (by decide) (by decide)
      (by decide) (by decide)⟩

/-- C10 counterexample: after exactly `2 ^ 32` appends into a capacity-1 pool the retained
entry has id `2 ^ 32 - 1` while the wrapped counter is 0, so in this reachable state it is
not true that every retained id is below the counter. -/
theorem retained_id_invariant_fails_at_u32 :
    ¬ ((runLog Verbosity.Debug 1 wrapOpsExact).pool.Pairwise (fun a b => b.id < a.id) ∧
        ∀ e ∈ (runLog Verbosity.Debug 1 wrapOpsExact).pool,
          e.id < (runLog Verbosity.Debug 1 wrapOpsExact).counter) := by
  rintro ⟨-, h⟩
  have hpool : (runLog Verbosity.Debug 1 wrapOpsExact).pool =
      [⟨(u32size - 1) % u32size, ("x"), Verbosity.Error⟩] := by
    have hx := runLog_cap1_pool Verbosity.Debug Verbosity.Error ("x") (u32size - 1)
    rw [show u32size - 1 + 1 = u32size by unfold u32size; omega] at hx
    exact hx
  have hcnt : (runLog Verbosity.Debug 1 wrapOpsExact).counter = 0 := by
    rw [runLog_counter]
    unfold wrapOpsExact
    rw [List.length_replicate, Nat.mod_self]
  have hmem := h ⟨(u32size - 1) % u32size, ("x"), Verbosity.Error⟩
    (by rw [hpool]; exact List.mem_singleton.mpr rfl)
  rw [hcnt] at hmem
  exact Nat.not_lt_zero _ hmem

/-- C10 (amended): in every state reachable from initialization by fewer than `2 ^ 32`
successful appends, the ids of the retained entries are strictly decreasing from the
most-recent front to the least-recent back, and every retained id is strictly below the
current counter; at `2 ^ 32` appends the wrapped counter falsifies the second part. -/
theorem retained_ids_decreasing_below_u32 (v : Verbosity) (cap : Nat)
    (ops : List (String × Verbosity)) (h : ops.length < u32size) :
    (runLog v cap ops).pool.Pairwise (fun a b => b.id < a.id) ∧
      ∀ e ∈ (runLog v cap ops).pool, e.id < (runLog v cap ops).counter := by
  refine inv_runFrom ops (init v cap) ?_ ?_ ?_
  · exact List.Pairwise.nil
  · intro e he
    exact absurd he (List.not_mem_nil e)
  · show 0 + ops.length < u32size
    omega

theorem retained_ids_decreasing_below_u32_witness :
    sampleOps.length < u32size ∧
      ((runLog Verbosity.Debug 1000 sampleOps).pool.Pairwise (fun a b => b.id < a.id) ∧
        ∀ e ∈ (runLog Verbosity.Debug 1000 sampleOps).pool,
          e.id < (runLog Verbosity.Debug 1000 sampleOps).counter) :=
  ⟨by decide, retained_ids_decreasing_below_u32 Verbosity.Debug 1000 sampleOps (by decide)⟩

end MutexLogger
